import Mathlib

/-!
Formal model of the usage-management core of the labnocturne images backend:
the in-memory token-bucket rate limiter (internal/ratelimit), the upload
pipeline and file service (internal/service/file.go), the lifecycle cleanup
worker (internal/service/cleanup), the bandwidth accountant
(internal/service/bandwidth.go) and the backing stores
(internal/store/file.go, internal/store/user.go).

Conventions of the embedding:
- wall-clock instants and durations are rationals measured in seconds
  (Go time.Time / time.Duration); the Go zero time is 0;
- Go float64 token counts are rationals;
- Go strings are Lean strings, with byte-level helpers defined on
  String.data (ASCII-faithful);
- database and object-store effects are explicit state passed through the
  functions; external fallible calls (S3, SQL) are modelled by success
  oracles supplied as parameters;
- fallible Go functions returning (T, error) are modelled with Option/Except.
-/

namespace Ratelimit

/-- Model of golang.org/x/time/rate.Limiter as used by the service: `limit`
is the refill rate in tokens per second, `burst` the bucket capacity,
`tokens` the current token count and `last` the time of the last token
update.  `rate.NewLimiter` leaves `tokens = 0` and `last` at the zero time;
the first `advance` then fills the bucket (capped at `burst`). -/
structure RateLimiter where
  limit : ℚ
  burst : ℤ
  tokens : ℚ
  last : ℚ
deriving DecidableEq

/-- Model of rate.NewLimiter: zero tokens, zero last time. -/
def RateLimiter.new (r : ℚ) (b : ℤ) : RateLimiter :=
  { limit := r, burst := b, tokens := 0, last := 0 }

/-- Model of rate.Limiter.advance: the token count available at time `t`,
refilled at `limit` tokens per second since `last`, capped at `burst`. -/
def RateLimiter.advanceTokens (lim : RateLimiter) (t : ℚ) : ℚ :=
  let last := if t < lim.last then t else lim.last
  let elapsed := t - last
  min (lim.burst : ℚ) (lim.tokens + elapsed * lim.limit)

/-- Model of rate.Limiter.Allow at instant `t` (AllowN(t, 1), i.e. reserveN
with n = 1 and maxFutureReserve = 0): admit iff one token is available after
refill; on success commit the decremented token count and `last := t`, on
failure leave the limiter untouched. -/
def RateLimiter.allowAt (lim : RateLimiter) (t : ℚ) : Bool × RateLimiter :=
  let tokens := lim.advanceTokens t - 1
  if 1 ≤ lim.burst ∧ 0 ≤ tokens then
    (true, { lim with tokens := tokens, last := t })
  else
    (false, lim)

/-- Model of ratelimit.bucketInfo: the token bucket plus the coarse
reporting counter for the current window. -/
structure BucketInfo where
  limiter : RateLimiter
  count : ℕ
  windowStart : ℚ
  lastAccess : ℚ
deriving DecidableEq

/-- Model of the Limiter.rates map: plan -> requests per hour. -/
def rates (plan : String) : Option ℕ :=
  if plan = "test" then some 100
  else if plan = "starter" then some 1000
  else if plan = "pro" then some 10000
  else none

/-- Model of Limiter.getRateForPlan: map lookup with fallback to the test
plan quota (rates["test"] = 100) for an unknown plan. -/
def getRateForPlan (plan : String) : ℕ :=
  match rates plan with
  | some v => v
  | none => 100

/-- Model of ratelimit.Limiter: the per-API-key and per-IP bucket maps
(Go maps modelled as association lists). -/
structure Limiter where
  limiters : List (String × BucketInfo)
  ipLimiters : List (String × BucketInfo)
deriving DecidableEq

/-- Model of ratelimit.NewLimiter (the rates map is the fixed `rates`). -/
def Limiter.new : Limiter := { limiters := [], ipLimiters := [] }

/-- Go map read m[k]. -/
def lookupKey (m : List (String × BucketInfo)) (k : String) : Option BucketInfo :=
  match m with
  | [] => none
  | (k', b) :: t => if k' = k then some b else lookupKey t k

/-- Go map write m[k] = b. -/
def setKey (m : List (String × BucketInfo)) (k : String) (b : BucketInfo) :
    List (String × BucketInfo) :=
  match m with
  | [] => [(k, b)]
  | (k', b') :: t => if k' = k then (k, b) :: t else (k', b') :: setKey t k b

/-- Model of Limiter.createBucket: burst = hourly limit, refill rate
limit/3600 tokens per second, fresh window and access stamps. -/
def Limiter.createBucket (plan : String) (now : ℚ) : BucketInfo :=
  let limit := getRateForPlan plan
  { limiter := RateLimiter.new ((limit : ℚ) / 3600) (limit : ℤ)
    count := 0
    windowStart := now
    lastAccess := now }

/-- The four values returned by Limiter.Allow / Limiter.AllowIP:
(allowed, limit, remaining, resetAt). -/
structure AllowResult where
  allowed : Bool
  limit : ℤ
  remaining : ℤ
  resetAt : ℚ
deriving DecidableEq

/-- Model of Limiter.Allow(apiKey, plan) at instant `now` (the Go code reads
time.Now twice inside one short critical section; the model uses a single
instant for the call).  Gets or creates the bucket, lazily resets the hour
window, consumes a token, updates the reporting counter, and returns
(allowed, limit, remaining, resetAt) together with the updated limiter. -/
def Limiter.allow (l : Limiter) (apiKey plan : String) (now : ℚ) :
    AllowResult × Limiter :=
  let limit : ℤ := (getRateForPlan plan : ℤ)
  let bucket :=
    match lookupKey l.limiters apiKey with
    | some b => b
    | none => Limiter.createBucket plan now
  let bucket :=
    if 3600 ≤ now - bucket.windowStart then
      { bucket with count := 0, windowStart := now }
    else bucket
  let bucket := { bucket with lastAccess := now }
  let res := bucket.limiter.allowAt now
  let bucket := { bucket with limiter := res.2 }
  let bucket := if res.1 then { bucket with count := bucket.count + 1 } else bucket
  let r0 : ℤ := limit - (bucket.count : ℤ)
  let remaining := if r0 < 0 then 0 else r0
  let resetAt := bucket.windowStart + 3600
  ({ allowed := res.1, limit := limit, remaining := remaining, resetAt := resetAt },
   { l with limiters := setKey l.limiters apiKey bucket })

/-- Model of Limiter.createIPBucket: burst = caller-supplied limit, refill
rate limit/window tokens per second. -/
def Limiter.createIPBucket (limit : ℤ) (window : ℚ) (now : ℚ) : BucketInfo :=
  { limiter := RateLimiter.new ((limit : ℚ) / window) limit
    count := 0
    windowStart := now
    lastAccess := now }

/-- Model of Limiter.AllowIP(ipAddress, limit, window) at instant `now`:
same shape as Allow but with a caller-supplied limit and window. -/
def Limiter.allowIP (l : Limiter) (ip : String) (limit : ℤ) (window : ℚ)
    (now : ℚ) : AllowResult × Limiter :=
  let bucket :=
    match lookupKey l.ipLimiters ip with
    | some b => b
    | none => Limiter.createIPBucket limit window now
  let bucket :=
    if window ≤ now - bucket.windowStart then
      { bucket with count := 0, windowStart := now }
    else bucket
  let bucket := { bucket with lastAccess := now }
  let res := bucket.limiter.allowAt now
  let bucket := { bucket with limiter := res.2 }
  let bucket := if res.1 then { bucket with count := bucket.count + 1 } else bucket
  let r0 : ℤ := limit - (bucket.count : ℤ)
  let remaining := if r0 < 0 then 0 else r0
  let resetAt := bucket.windowStart + window
  ({ allowed := res.1, limit := limit, remaining := remaining, resetAt := resetAt },
   { l with ipLimiters := setKey l.ipLimiters ip bucket })

/-- The list of `allowed` results of `n` consecutive Limiter.Allow calls
for one key, all at the same instant (no refill time elapses between calls). -/
def allowCalls (l : Limiter) (apiKey plan : String) (now : ℚ) : ℕ → List Bool
  | 0 => []
  | n + 1 =>
    let r := l.allow apiKey plan now
    r.1.allowed :: allowCalls r.2 apiKey plan now n

/-! Proof infrastructure for the rate limiter. -/

/-- The bucket state reached after k admitted calls at one instant for a
plan with hourly capacity C. -/
def bucketAfter (C k : ℕ) (now : ℚ) : BucketInfo :=
  { limiter :=
      { limit := (C : ℚ) / 3600, burst := (C : ℤ), tokens := (C : ℚ) - (k : ℚ), last := now }
    count := k
    windowStart := now
    lastAccess := now }

/-- The limiter state holding exactly one bucket, for `key`, in state
`bucketAfter C k now`. -/
def stateAfter (key : String) (C k : ℕ) (now : ℚ) : Limiter :=
  { limiters := [(key, bucketAfter C k now)], ipLimiters := [] }

lemma getRateForPlan_ge (plan : String) : 100 ≤ getRateForPlan plan := by
  unfold getRateForPlan rates
  split_ifs <;> simp

lemma allowCalls_succ (l : Limiter) (key plan : String) (now : ℚ) (n : ℕ) :
    allowCalls l key plan now (n + 1) =
      (l.allow key plan now).1.allowed :: allowCalls (l.allow key plan now).2 key plan now n := rfl

/-- The first Allow call on a fresh limiter (no bucket yet) at any wall
instant at least one refill window after the Go zero time: the freshly
created bucket fills to its burst capacity C and the call is admitted,
leaving C - 1 tokens. -/
lemma allow_fresh (key plan : String) (now : ℚ) (h : 3600 ≤ now) :
    Limiter.new.allow key plan now =
      ({ allowed := true, limit := (getRateForPlan plan : ℤ),
         remaining := (getRateForPlan plan : ℤ) - 1, resetAt := now + 3600 },
       stateAfter key (getRateForPlan plan) 1 now) := by
  have hC := getRateForPlan_ge plan
  have h0 : (0:ℚ) ≤ now := le_trans (by norm_num) h
  have hmin : min ((((getRateForPlan plan) : ℤ)) : ℚ)
      (0 + now * (((getRateForPlan plan) : ℕ) / 3600)) = ((((getRateForPlan plan) : ℤ)) : ℚ) := by
    apply min_eq_left
    push_cast
    rw [zero_add, mul_div_assoc']
    rw [le_div_iff₀ (by norm_num : (0:ℚ) < 3600)]
    have hcq : (0:ℚ) ≤ ((getRateForPlan plan : ℕ) : ℚ) := by positivity
    nlinarith [mul_nonneg (sub_nonneg.2 h) hcq]
  have hb : (1:ℤ) ≤ ((getRateForPlan plan) : ℤ) := by exact_mod_cast le_trans (by norm_num) hC
  have ht : (0:ℚ) ≤ ((((getRateForPlan plan) : ℤ)) : ℚ) - 1 := by
    have : (100:ℚ) ≤ (((getRateForPlan plan) : ℤ) : ℚ) := by exact_mod_cast hC
    linarith
  simp only [Limiter.allow, Limiter.new, lookupKey, Limiter.createBucket, RateLimiter.new,
    RateLimiter.allowAt, RateLimiter.advanceTokens, stateAfter, bucketAfter, setKey, sub_self]
  rw [if_neg (by norm_num : ¬ ((3600:ℚ) ≤ (0:ℚ)))]
  rw [if_neg (not_lt.2 h0)]
  simp only [sub_zero, hmin, hb, ht, and_self, if_true, true_and, and_true]
  simp only [zero_add, Nat.cast_one]
  rw [if_neg (not_lt.2 (by linarith [hb] : (0:ℤ) ≤ ((getRateForPlan plan) : ℤ) - 1))]
  push_cast
  rfl

/-- With no refill time elapsed, an Allow call on a bucket holding C - k
tokens (k < C) is admitted and leaves C - (k + 1) tokens. -/
lemma allow_step (key plan : String) (now : ℚ) (k : ℕ) (hk : k < getRateForPlan plan) :
    (stateAfter key (getRateForPlan plan) k now).allow key plan now =
      ({ allowed := true, limit := (getRateForPlan plan : ℤ),
         remaining := (getRateForPlan plan : ℤ) - ((k : ℤ) + 1), resetAt := now + 3600 },
       stateAfter key (getRateForPlan plan) (k + 1) now) := by
  have hC := getRateForPlan_ge plan
  have hkq : ((k:ℚ)) + 1 ≤ ((getRateForPlan plan : ℕ) : ℚ) := by exact_mod_cast hk
  have hmin : min ((((getRateForPlan plan) : ℤ)) : ℚ)
      (((getRateForPlan plan : ℕ) : ℚ) - (k:ℚ)) = ((getRateForPlan plan : ℕ) : ℚ) - (k:ℚ) := by
    apply min_eq_right
    push_cast
    have : (0:ℚ) ≤ (k:ℚ) := by positivity
    linarith
  have hb : (1:ℤ) ≤ ((getRateForPlan plan) : ℤ) := by exact_mod_cast le_trans (by norm_num) hC
  have ht : (0:ℚ) ≤ (((getRateForPlan plan : ℕ)) : ℚ) - (k:ℚ) - 1 := by linarith
  simp only [Limiter.allow, lookupKey, stateAfter, bucketAfter, setKey, RateLimiter.allowAt,
    RateLimiter.advanceTokens, sub_self, if_pos rfl, ite_true]
  rw [if_neg (by norm_num : ¬ ((3600:ℚ) ≤ (0:ℚ)))]
  rw [if_neg (lt_irrefl now)]
  simp only [sub_self, zero_mul, add_zero, hmin, hb, ht, and_self, if_true, true_and, and_true]
  rw [if_neg (show ¬ ((getRateForPlan plan : ℤ) - ((k + 1 : ℕ) : ℤ) < 0) by push_cast; omega)]
  push_cast
  try rw [sub_sub]
  try rfl

/-- With no refill time elapsed, an Allow call on an exhausted bucket
(zero tokens) is denied and leaves the bucket state unchanged. -/
lemma allow_exhaust (key plan : String) (now : ℚ) :
    (stateAfter key (getRateForPlan plan) (getRateForPlan plan) now).allow key plan now =
      ({ allowed := false, limit := (getRateForPlan plan : ℤ),
         remaining := 0, resetAt := now + 3600 },
       stateAfter key (getRateForPlan plan) (getRateForPlan plan) now) := by
  simp only [Limiter.allow, lookupKey, stateAfter, bucketAfter, setKey, RateLimiter.allowAt,
    RateLimiter.advanceTokens, sub_self, if_pos rfl, ite_true]
  rw [if_neg (by norm_num : ¬ ((3600:ℚ) ≤ (0:ℚ)))]
  rw [if_neg (lt_irrefl now)]
  simp only [sub_self, zero_mul, add_zero, min_self]
  rw [if_neg (show ¬ ((1:ℤ) ≤ (getRateForPlan plan : ℤ) ∧
      (0:ℚ) ≤ min ((getRateForPlan plan : ℤ) : ℚ) 0 - 1) by
    rintro ⟨h1, h2⟩
    have : min (((getRateForPlan plan : ℤ)) : ℚ) 0 ≤ 0 := min_le_right _ _
    linarith)]
  dsimp only
  simp only [Bool.false_eq_true, if_false, ite_false]
  simp [sub_self]

/-- Starting k admitted calls in, the next C - k calls are admitted and the
one after is denied. -/
lemma allowCalls_from (key plan : String) (now : ℚ) :
    ∀ j k, k + j = getRateForPlan plan →
      allowCalls (stateAfter key (getRateForPlan plan) k now) key plan now (j + 1) =
        List.replicate j true ++ [false] := by
  intro j
  induction j with
  | zero =>
    intro k hk
    have hkC : k = getRateForPlan plan := by omega
    subst hkC
    rw [allowCalls_succ, allow_exhaust]
    rfl
  | succ j ih =>
    intro k hk
    have hklt : k < getRateForPlan plan := by omega
    rw [allowCalls_succ, allow_step key plan now k hklt]
    rw [ih (k + 1) (by omega)]
    rfl

lemma lookupKey_setKey (m : List (String × BucketInfo)) (k : String) (b : BucketInfo) :
    lookupKey (setKey m k b) k = some b := by
  induction m with
  | nil => simp [setKey, lookupKey]
  | cons hd t ih =>
    obtain ⟨k', b'⟩ := hd
    by_cases hk : k' = k
    · simp [setKey, lookupKey, hk]
    · simp [setKey, lookupKey, hk, ih]

/-- The result of AllowIP for a fresh bucket with caller-supplied limit -1,
window 60s, at instant 1000: denied, but remaining is clamped to 0 while the
returned limit is -1. -/
lemma allowIP_negative_limit :
    (Limiter.new.allowIP ("ip") (-1) 60 1000).1 =
      { allowed := false, limit := -1, remaining := 0, resetAt := 1060 } := by
  simp only [Limiter.allowIP, Limiter.new, lookupKey, Limiter.createIPBucket, RateLimiter.new,
    RateLimiter.allowAt, RateLimiter.advanceTokens]
  norm_num

/-- C1: for every key whose plan gives bucket capacity C, starting from a
freshly created limiter with no refill time elapsed between calls (all calls
at one wall instant, at least one window after the Go zero time), the first
C consecutive Allow calls return allowed = true and the (C+1)th returns
allowed = false. -/
theorem C1_rate_limiter_exhaustion (key plan : String) (now : ℚ) (h : 3600 ≤ now) :
    allowCalls Limiter.new key plan now (getRateForPlan plan + 1) =
      List.replicate (getRateForPlan plan) true ++ [false] := by
  have hC := getRateForPlan_ge plan
  obtain ⟨m, hm⟩ : ∃ m, getRateForPlan plan = m + 1 := ⟨getRateForPlan plan - 1, by omega⟩
  rw [hm, allowCalls_succ, allow_fresh key plan now h]
  dsimp only
  rw [allowCalls_from key plan now m 1 (by omega)]
  simp [List.replicate_succ]

/-- Witness for C1 at the test plan (capacity 100), key "k", instant 3600. -/
theorem C1_rate_limiter_exhaustion_witness :
    (3600:ℚ) ≤ 3600 ∧
    allowCalls Limiter.new ("k") ("test") 3600 (getRateForPlan ("test") + 1) =
      List.replicate (getRateForPlan ("test")) true ++ [false] :=
  ⟨le_refl (3600:ℚ), C1_rate_limiter_exhaustion ("k") ("test") 3600 (le_refl (3600:ℚ))⟩

/-- C10 (amended): every Allow call, at any limiter state, returns remaining
with 0 ≤ remaining ≤ limit and resetAt equal to the stored bucket's current
window start plus the hour window; the same holds for AllowIP provided the
caller-supplied limit is nonnegative (with its caller-supplied window). -/
theorem C10_allow_remaining_bounds (st : Limiter) (key plan ip : String)
    (now win : ℚ) (lim : ℤ) (hlim : 0 ≤ lim) :
    (0 ≤ (st.allow key plan now).1.remaining ∧
     (st.allow key plan now).1.remaining ≤ (st.allow key plan now).1.limit ∧
     ∃ b, lookupKey (st.allow key plan now).2.limiters key = some b ∧
       (st.allow key plan now).1.resetAt = b.windowStart + 3600) ∧
    (0 ≤ (st.allowIP ip lim win now).1.remaining ∧
     (st.allowIP ip lim win now).1.remaining ≤ (st.allowIP ip lim win now).1.limit ∧
     ∃ b, lookupKey (st.allowIP ip lim win now).2.ipLimiters ip = some b ∧
       (st.allowIP ip lim win now).1.resetAt = b.windowStart + win) := by
  constructor
  · refine ⟨?_, ?_, ?_⟩
    · dsimp only [Limiter.allow]
      split_ifs <;> omega
    · dsimp only [Limiter.allow]
      split_ifs <;> omega
    · dsimp only [Limiter.allow]
      exact ⟨_, lookupKey_setKey _ _ _, rfl⟩
  · refine ⟨?_, ?_, ?_⟩
    · dsimp only [Limiter.allowIP]
      split_ifs <;> omega
    · dsimp only [Limiter.allowIP]
      split_ifs <;> omega
    · dsimp only [Limiter.allowIP]
      exact ⟨_, lookupKey_setKey _ _ _, rfl⟩

/-- Witness for C10 at a fresh limiter, test plan, IP limit 5, window 60,
instant 1000. -/
theorem C10_allow_remaining_bounds_witness :
    (0:ℤ) ≤ 5 ∧
    ((0 ≤ (Limiter.new.allow ("k") ("test") 1000).1.remaining ∧
      (Limiter.new.allow ("k") ("test") 1000).1.remaining ≤
        (Limiter.new.allow ("k") ("test") 1000).1.limit ∧
      ∃ b, lookupKey (Limiter.new.allow ("k") ("test") 1000).2.limiters ("k") = some b ∧
        (Limiter.new.allow ("k") ("test") 1000).1.resetAt = b.windowStart + 3600) ∧
     (0 ≤ (Limiter.new.allowIP ("ip") 5 60 1000).1.remaining ∧
      (Limiter.new.allowIP ("ip") 5 60 1000).1.remaining ≤
        (Limiter.new.allowIP ("ip") 5 60 1000).1.limit ∧
      ∃ b, lookupKey (Limiter.new.allowIP ("ip") 5 60 1000).2.ipLimiters ("ip") = some b ∧
        (Limiter.new.allowIP ("ip") 5 60 1000).1.resetAt = b.windowStart + 60)) :=
  ⟨by decide,
   C10_allow_remaining_bounds Limiter.new ("k") ("test") ("ip") 1000 60 5 (by decide)⟩

/-- Counterexample for C10 as stated: an AllowIP call with caller-supplied
limit -1 returns remaining = 0 > -1 = limit, violating remaining ≤ limit. -/
theorem C10_remaining_bounds_cex :
    ¬ ((Limiter.new.allowIP ("ip") (-1) 60 1000).1.remaining ≤
        (Limiter.new.allowIP ("ip") (-1) 60 1000).1.limit) := by
  rw [allowIP_negative_limit]
  norm_num

end Ratelimit

namespace Bandwidth

/-!
Model of the Bandwidth Accountant (internal/service/bandwidth.go).  Go
strings are modelled as lists of characters (byte-faithful for the ASCII
data involved); S3 log fetches and gzip decoding are external I/O, so a log
file enters the model as its list of text lines, and FindByID is the oracle
`fileOwner` mapping a ULID to the owning user id of a live (non-deleted)
file row.
-/

/-- Model of strings.Split(s, sep) for a one-character separator. -/
def splitOnChar (sep : Char) (s : List Char) : List (List Char) :=
  match s with
  | [] => [[]]
  | c :: t =>
    match splitOnChar sep t with
    | [] => [[]]
    | g :: gs => if c = sep then [] :: g :: gs else (c :: g) :: gs

/-- Model of strings.TrimPrefix(uri, "/"): drop one leading slash if present. -/
def trimLeadingSlash (s : List Char) : List Char :=
  match s with
  | '/' :: t => t
  | s => s

/-- Model of strings.LastIndex(f, ".") followed by the two slices
f[:dotIndex] and f[dotIndex+1:]: split a string at its last dot, or none if
it has no dot. -/
def splitLastDot (s : List Char) : Option (List Char × List Char) :=
  match s with
  | [] => none
  | c :: t =>
    match splitLastDot t with
    | some (a, b) => some (c :: a, b)
    | none => if c = '.' then some ([], t) else none

/-- Model of extractULIDFromURI: trim one leading slash, split on "/",
require at least two parts with the first equal to "i", split the second
part at its last dot, require a 26-character prefix, and return it
uppercased.  Go's (string, error) is modelled as Option. -/
def extractULIDFromURI (uri : List Char) : Option (List Char) :=
  let uri := trimLeadingSlash uri
  let parts := splitOnChar '/' uri
  match parts with
  | p0 :: p1 :: _ =>
    if p0 = ['i'] then
      match splitLastDot p1 with
      | some (u, _e) => if u.length = 26 then some (u.map Char.toUpper) else none
      | none => none
    else none
  | _ => none

/-- Model of a decimal digit test for strconv.ParseInt. -/
def digitVal (c : Char) : Option ℕ :=
  if ('0') ≤ c ∧ c ≤ ('9') then some (c.toNat - ('0').toNat) else none

/-- Decimal digits accumulated left to right; none if the digit string is
empty or contains a non-digit. -/
def parseDigits (s : List Char) : Option ℕ :=
  match s with
  | [] => none
  | _ =>
    s.foldl (fun acc c =>
      match acc, digitVal c with
      | some n, some d => some (10 * n + d)
      | _, _ => none) (some 0)

/-- Model of strconv.ParseInt(s, 10, 64): optional sign, nonempty decimal
digits, result within the signed 64-bit range (out-of-range input is an
error for the caller). -/
def goParseInt64 (s : List Char) : Option ℤ :=
  match s with
  | '+' :: t =>
    (parseDigits t).bind fun n => if (n : ℤ) ≤ 2 ^ 63 - 1 then some ((n : ℤ)) else none
  | '-' :: t =>
    (parseDigits t).bind fun n => if (n : ℤ) ≤ 2 ^ 63 then some (-(n : ℤ)) else none
  | t =>
    (parseDigits t).bind fun n => if (n : ℤ) ≤ 2 ^ 63 - 1 then some ((n : ℤ)) else none

/-- Model of BandwidthService.processLogLine: split the line on tabs,
require at least 15 fields, parse field 3 (sc-bytes) as an int64, extract
the ULID from field 7 (cs-uri-stem), resolve it to the owning user via the
metadata store; none models the error return (the caller skips the line). -/
def processLogLine (fileOwner : List Char → Option (List Char)) (line : List Char) :
    Option (List Char × ℤ) :=
  let fields := splitOnChar ('\t') line
  if fields.length < 15 then none
  else
    match goParseInt64 (fields.getD 3 []) with
    | none => none
    | some bytesServed =>
      match extractULIDFromURI (fields.getD 7 []) with
      | none => none
      | some ulid =>
        match fileOwner ulid with
        | none => none
        | some userID => some (userID, bytesServed)

/-- Go: the userBandwidth map update — add bytes and one request to the
user's aggregation entry, creating it at (0, 0) first if absent. -/
def addBandwidth (m : List (List Char × (ℤ × ℕ))) (uid : List Char) (bytes : ℤ) :
    List (List Char × (ℤ × ℕ)) :=
  match m with
  | [] => [(uid, (bytes, 1))]
  | (k, a) :: t =>
    if k = uid then (k, (a.1 + bytes, a.2 + 1)) :: t
    else (k, a) :: addBandwidth t uid bytes

/-- Model of processLogFile's scanner loop: skip comment lines (leading #),
parse each remaining line, skip lines that fail to parse without failing
the file, and aggregate the rest into the per-user map. -/
def processFileLines (fileOwner : List Char → Option (List Char))
    (lines : List (List Char)) (m : List (List Char × (ℤ × ℕ))) :
    List (List Char × (ℤ × ℕ)) :=
  match lines with
  | [] => m
  | line :: rest =>
    if ['#'].isPrefixOf line then processFileLines fileOwner rest m
    else
      match processLogLine fileOwner line with
      | none => processFileLines fileOwner rest m
      | some (uid, bytes) => processFileLines fileOwner rest (addBandwidth m uid bytes)

/-- The bandwidth_stats table: one optional (bytes_served, request_count)
row per (user_id, date). -/
def BwDb : Type := (List Char × List Char) → Option (ℤ × ℕ)

/-- Model of BandwidthStore.UpdateBandwidth: INSERT ... ON CONFLICT
(user_id, date) DO UPDATE SET — an upsert that replaces the stored values. -/
def UpdateBandwidth (db : BwDb) (userID date : List Char) (bytesServed : ℤ)
    (requestCount : ℕ) : BwDb :=
  fun k => if k = (userID, date) then some (bytesServed, requestCount) else db k

/-- Phase 3 of ProcessLogFiles: upsert every aggregated entry for the date. -/
def saveAgg (date : List Char) (m : List (List Char × (ℤ × ℕ))) (db : BwDb) : BwDb :=
  m.foldl (fun d e => UpdateBandwidth d e.1 date e.2.1 e.2.2) db

/-- Phase 2 of ProcessLogFiles: aggregate all of the day's log files into
one per-user map, starting from the empty map. -/
def aggregateFiles (fileOwner : List Char → Option (List Char))
    (files : List (List (List Char))) : List (List Char × (ℤ × ℕ)) :=
  files.foldl (fun m f => processFileLines fileOwner f m) []

/-- Model of BandwidthService.ProcessLogFiles for one date: aggregate the
listed log files, then upsert one row per user (file listing, fetch and
decompression are I/O and enter as the `files` contents). -/
def ProcessLogFiles (fileOwner : List Char → Option (List Char))
    (files : List (List (List Char))) (date : List Char) (db : BwDb) : BwDb :=
  saveAgg date (aggregateFiles fileOwner files) db

end Bandwidth

namespace Bandwidth

lemma exists_last_occurrence (c : Char) : ∀ (l : List Char), c ∈ l →
    ∃ a b, l = a ++ c :: b ∧ c ∉ b := by
  intro l
  induction l with
  | nil => intro h; cases h
  | cons x xs ih =>
    intro h
    by_cases hx : c ∈ xs
    · obtain ⟨a, b, hab, hnb⟩ := ih hx
      exact ⟨x :: a, b, by simp [hab], hnb⟩
    · have hcx : c = x := by
        rcases List.mem_cons.1 h with h1 | h2
        · exact h1
        · exact absurd h2 hx
      exact ⟨[], xs, by simp [hcx], hx⟩

lemma splitLastDot_mem {s : List Char} {a b : List Char}
    (h : splitLastDot s = some (a, b)) : ('.') ∈ s := by
  induction s generalizing a b with
  | nil => simp [splitLastDot] at h
  | cons c t ih =>
    rw [splitLastDot] at h
    rcases ht : splitLastDot t with _ | ⟨a', b'⟩
    · rw [ht] at h
      by_cases hc : c = '.'
      · simp [hc]
      · simp [hc] at h
    · rw [ht] at h
      exact List.mem_cons_of_mem c (ih ht)

lemma splitLastDot_some (s : List Char) : ∀ a b,
    splitLastDot s = some (a, b) ↔ (s = a ++ ('.') :: b ∧ ('.') ∉ b) := by
  induction s with
  | nil =>
    intro a b
    simp only [splitLastDot]
    constructor
    · intro h; cases h
    · rintro ⟨h, _⟩
      exact absurd h (by simp)
  | cons c t ih =>
    intro a b
    rw [splitLastDot]
    rcases ht : splitLastDot t with _ | ⟨a', b'⟩
    · by_cases hc : c = '.'
      · subst hc
        simp only [if_pos rfl]
        constructor
        · rintro h
          injection h with h
          injection h with h1 h2
          subst h1; subst h2
          refine ⟨rfl, ?_⟩
          intro hmem
          obtain ⟨x, y, hxy, hny⟩ := exists_last_occurrence _ _ hmem
          have : splitLastDot t = some (x, y) := ((ih x y).2 ⟨hxy, hny⟩)
          rw [ht] at this; cases this
        · rintro ⟨heq, hnb⟩
          rcases a with _ | ⟨c₀, a₀⟩
          · simp only [List.nil_append] at heq
            injection heq with h1 h2
            subst h2
            rfl
          · simp only [List.cons_append] at heq
            injection heq with h1 h2
            have : splitLastDot t = some (a₀, b) := (ih a₀ b).2 ⟨h2, hnb⟩
            rw [ht] at this; cases this
      · rw [if_neg hc]
        constructor
        · intro h; cases h
        · rintro ⟨heq, hnb⟩
          rcases a with _ | ⟨c₀, a₀⟩
          · simp only [List.nil_append] at heq
            injection heq with h1 h2
            exact absurd h1 hc
          · simp only [List.cons_append] at heq
            injection heq with h1 h2
            have : splitLastDot t = some (a₀, b) := (ih a₀ b).2 ⟨h2, hnb⟩
            rw [ht] at this; cases this
    · have hta : t = a' ++ ('.') :: b' ∧ ('.') ∉ b' := (ih a' b').1 ht
      constructor
      · intro h
        injection h with h
        injection h with h1 h2
        subst h1; subst h2
        exact ⟨by simp [hta.1], hta.2⟩
      · rintro ⟨heq, hnb⟩
        rcases a with _ | ⟨c₀, a₀⟩
        · simp only [List.nil_append] at heq
          injection heq with h1 h2
          subst h2
          exfalso
          have : ('.') ∈ t := splitLastDot_mem ht
          exact hnb this
        · simp only [List.cons_append] at heq
          injection heq with h1 h2
          have : splitLastDot t = some (a₀, b) := (ih a₀ b).2 ⟨h2, hnb⟩
          rw [ht] at this
          injection this with h3
          injection h3 with h4 h5
          subst h1
          rw [h4, h5]

/-- The amended claim's acceptance predicate for the bandwidth log path
parser, stated declaratively: after stripping a single leading slash, the
path splits at slashes into the literal lowercase marker segment "i"
followed by a filename segment of the form identifier ++ "." ++ extension
with a dot-free extension and a 26-character identifier, any further
segments being ignored; the result is the uppercased identifier. -/
def claimShape (uri u : List Char) : Prop :=
  ∃ idt ext rest,
    splitOnChar '/' (trimLeadingSlash uri) = ['i'] :: (idt ++ ('.') :: ext) :: rest ∧
    ('.') ∉ ext ∧ idt.length = 26 ∧ u = idt.map Char.toUpper

lemma extract_iff (uri u : List Char) :
    extractULIDFromURI uri = some u ↔ claimShape uri u := by
  simp only [extractULIDFromURI, claimShape]
  rcases hp : splitOnChar '/' (trimLeadingSlash uri) with _ | ⟨p0, ps⟩
  · simp
  · rcases ps with _ | ⟨p1, rest⟩
    · simp
    · dsimp only
      by_cases h0 : p0 = ['i']
      · subst h0
        rw [if_pos rfl]
        rcases hd : splitLastDot p1 with _ | ⟨a, b⟩
        · constructor
          · intro h; cases h
          · rintro ⟨idt, ext, rest', heq, hne, hlen, hu⟩
            injection heq with h1 heq2
            injection heq2 with h2 h3
            have : splitLastDot p1 = some (idt, ext) :=
              (splitLastDot_some p1 idt ext).2 ⟨h2, hne⟩
            rw [hd] at this; cases this
        · have hab : p1 = a ++ ('.') :: b ∧ ('.') ∉ b := (splitLastDot_some p1 a b).1 hd
          dsimp only
          by_cases hlen : a.length = 26
          · rw [if_pos hlen]
            constructor
            · intro h
              injection h with h
              exact ⟨a, b, rest, by rw [hab.1], hab.2, hlen, h.symm⟩
            · rintro ⟨idt, ext, rest', heq, hne, hlen', hu⟩
              injection heq with h1 heq2
              injection heq2 with h2 h3
              have : splitLastDot p1 = some (idt, ext) :=
                (splitLastDot_some p1 idt ext).2 ⟨h2, hne⟩
              rw [hd] at this
              injection this with h4
              injection h4 with h5 h6
              subst hu
              rw [h5]
          · rw [if_neg hlen]
            constructor
            · intro h; cases h
            · rintro ⟨idt, ext, rest', heq, hne, hlen', hu⟩
              injection heq with h1 heq2
              injection heq2 with h2 h3
              have : splitLastDot p1 = some (idt, ext) :=
                (splitLastDot_some p1 idt ext).2 ⟨h2, hne⟩
              rw [hd] at this
              injection this with h4
              injection h4 with h5 h6
              subst h5
              exact absurd hlen' hlen
      · rw [if_neg h0]
        constructor
        · intro h; cases h
        · rintro ⟨idt, ext, rest', heq, hne, hlen, hu⟩
          injection heq with h1 heq2
          exact absurd h1 h0


/-- The last upsert for key k among the aggregation entries saved for a
date (later entries override earlier ones). -/
def lastWrite (date : List Char) (k : List Char × List Char) :
    List (List Char × (ℤ × ℕ)) → Option (ℤ × ℕ)
  | [] => none
  | e :: t =>
    match lastWrite date k t with
    | some v => some v
    | none => if k = (e.1, date) then some e.2 else none

lemma saveAgg_apply (date : List Char) (m : List (List Char × (ℤ × ℕ))) :
    ∀ (db : BwDb) (k : List Char × List Char),
      saveAgg date m db k =
        match lastWrite date k m with
        | some v => some v
        | none => db k := by
  induction m with
  | nil => intro db k; rfl
  | cons e t ih =>
    intro db k
    show saveAgg date t (UpdateBandwidth db e.1 date e.2.1 e.2.2) k = _
    rw [ih]
    show _ = (match (match lastWrite date k t with
        | some v => some v
        | none => if k = (e.1, date) then some e.2 else none) with
      | some v => some v
      | none => db k)
    rcases lastWrite date k t with _ | v
    · dsimp only [UpdateBandwidth]
      by_cases hk : k = (e.1, date)
      · rw [if_pos hk, if_pos hk]
      · rw [if_neg hk, if_neg hk]
    · rfl

end Bandwidth

namespace Bandwidth

/-- C2: the per-(account, day) upsert replaces the stored totals with the
newly aggregated values, and therefore processing the same day's logs a
second time with the same log contents leaves every account's bandwidth
row for that day identical to a single processing run. -/
theorem C2_reprocessing_idempotent :
    (∀ (db : BwDb) (uid date : List Char) (bytes : ℤ) (reqs : ℕ),
      UpdateBandwidth db uid date bytes reqs (uid, date) = some (bytes, reqs)) ∧
    (∀ (fileOwner : List Char → Option (List Char)) (files : List (List (List Char)))
       (date : List Char) (db : BwDb),
      ProcessLogFiles fileOwner files date (ProcessLogFiles fileOwner files date db) =
        ProcessLogFiles fileOwner files date db) := by
  constructor
  · intro db uid date bytes reqs
    simp [UpdateBandwidth]
  · intro fileOwner files date db
    funext k
    show saveAgg date (aggregateFiles fileOwner files)
        (saveAgg date (aggregateFiles fileOwner files) db) k =
      saveAgg date (aggregateFiles fileOwner files) db k
    simp only [saveAgg_apply]
    rcases lastWrite date k (aggregateFiles fileOwner files) with _ | v <;> rfl

/-- Counterexample for C5 as stated: the marker segment is matched
case-sensitively ("/I/..." with a well-formed 26-character identifier is
rejected), while a path with no leading slash and one with trailing extra
segments — neither of the claimed fixed shape — are accepted. -/
theorem C5_parser_shape_cex :
    extractULIDFromURI (("/I/01ARZ3NDEKTSV4RRFFQ69G5FAV.jpg").data) = none ∧
    extractULIDFromURI (("i/01arz3ndektsv4rrffq69g5fav.jpg").data) =
      some (("01ARZ3NDEKTSV4RRFFQ69G5FAV").data) ∧
    extractULIDFromURI (("/i/01ARZ3NDEKTSV4RRFFQ69G5FAV.jpg/extra").data) =
      some (("01ARZ3NDEKTSV4RRFFQ69G5FAV").data) := by
  refine ⟨by decide, by decide, by decide⟩

/-- C5 (amended): the parser accepts exactly the paths of `claimShape`
(lowercase marker matched case-sensitively after stripping at most one
leading slash, a second segment whose part before the last dot has exactly
26 characters — matched case-insensitively and returned uppercased — and
any further segments ignored), and every line whose path does not match is
skipped without failing the containing log file: processing a list of lines
continues past it with the aggregate unchanged. -/
theorem C5_parser_characterization :
    (∀ uri u, extractULIDFromURI uri = some u ↔ claimShape uri u) ∧
    (∀ (fileOwner : List Char → Option (List Char)) (line : List Char)
       (lines : List (List Char)) (m : List (List Char × (ℤ × ℕ))),
      processLogLine fileOwner line = none →
      processFileLines fileOwner (line :: lines) m = processFileLines fileOwner lines m) := by
  constructor
  · exact extract_iff
  · intro fileOwner line lines m hline
    show (if ['#'].isPrefixOf line then processFileLines fileOwner lines m
      else
        match processLogLine fileOwner line with
        | none => processFileLines fileOwner lines m
        | some (uid, bytes) => processFileLines fileOwner lines (addBandwidth m uid bytes)) = _
    rw [hline]
    by_cases hc : (['#'].isPrefixOf line : Bool)
    · rw [if_pos hc]
    · rw [if_neg hc]

/-- Witness for C5's skip clause: a line with too few fields parses to none
and is skipped, leaving the aggregate of the remaining (empty) lines. -/
theorem C5_parser_characterization_witness :
    processLogLine (fun _ => none) (("bad line").data) = none ∧
    processFileLines (fun _ => none) [("bad line").data] [] =
      processFileLines (fun _ => none) [] [] :=
  ⟨by decide,
   C5_parser_characterization.2 (fun _ => none) (("bad line").data) [] [] (by decide)⟩

end Bandwidth

namespace Files

/-!
Model of the upload pipeline and file service (internal/service/file.go)
and the backing stores (internal/store/file.go, internal/store/user.go).
Database rows and S3 objects are explicit state; external fallible calls
are success oracles in `UploadEnv`.
-/

/-- Model of model.User (fields the file service reads). -/
structure User where
  id : String
  keyType : String
  plan : String
deriving DecidableEq

/-- Model of model.File as assembled by Upload. -/
structure FileRec where
  id : String
  externalID : String
  userID : String
  filename : String
  extension : String
  sizeBytes : ℤ
  mimeType : String
  s3Key : String
  cdnURL : String
deriving DecidableEq

/-- ASCII model of strings.ToLower. -/
def goToLower (s : String) : String := String.mk (s.data.map Char.toLower)

/-- ASCII model of strings.ToUpper. -/
def goToUpper (s : String) : String := String.mk (s.data.map Char.toUpper)

/-- Model of strings.HasPrefix. -/
def goHasPre (s p : String) : Bool := p.data.isPrefixOf s.data

/-- Model of service.generateFileKeys with the generated ULID made explicit
(in Go it is drawn inside from the clock and an entropy source; everything
after that draw is deterministic).  Returns (externalID, s3Key, cdnURL).
Indexing lower[0..2] matches the Go byte indexing (the Go code panics on an
identifier shorter than three characters; theorems assume length ≥ 3). -/
def generateFileKeys (rawULID extension baseURL : String) :
    String × String × String :=
  let externalID := ("img_") ++ goToLower rawULID
  let lower := goToLower rawULID
  let s3Key := String.mk [lower.data.getD 0 ('?')] ++ ("/") ++
    String.mk [lower.data.getD 1 ('?')] ++ ("/") ++
    String.mk [lower.data.getD 2 ('?')] ++ ("/") ++ rawULID ++ (".") ++ extension
  let cdnURL := baseURL ++ ("/i/") ++ rawULID ++ (".") ++ extension
  (externalID, s3Key, cdnURL)

/-- The claim's storage-key formula, stated from the spec's words: the
lowercase first, second and third characters of the identifier as three
path levels, followed by the identifier and its extension. -/
def specStorageKey (id ext : String) : String :=
  match (goToLower id).data with
  | a :: b :: c :: _ =>
    String.mk [a] ++ ("/") ++ String.mk [b] ++ ("/") ++ String.mk [c] ++ ("/") ++
      id ++ (".") ++ ext
  | _ => ""

/-- The distinct tagged Upload failures. -/
inductive UploadError
  | invalidAPIKey
  | fileTooLarge
  | storageExceeded
  | invalidFileType
  | internalError
deriving DecidableEq

/-- The declared metadata of the incoming multipart file header. -/
structure FileHeader where
  filename : String
  size : ℤ
deriving DecidableEq

/-- External collaborators of Upload: the user lookup, the storage-usage
aggregate query (none = query error), the stream open/header read, the
magic-byte sniff result (extension, mimeType), the generated ULID, and the
S3 put / metadata insert outcomes. -/
structure UploadEnv where
  findByAPIKey : String → Option User
  storageUsage : String → Option (ℤ × ℤ)
  openOk : Bool
  sniff : Option (String × String)
  newULID : String
  putOk : Bool
  createOk : Bool

/-- Object-store and metadata-store state threaded through Upload. -/
structure Stores where
  s3 : List String
  meta : List FileRec
deriving DecidableEq

/-- FileService configuration (base URL, bucket, cached size limits). -/
structure FileService where
  baseURL : String
  s3Bucket : String
  maxFileSizeTest : ℤ
  maxFileSizeLive : ℤ
deriving DecidableEq

/-- Model of FileService.getMaxFileSizeForUser: live keys get the live
limit, every other key type the test limit. -/
def FileService.getMaxFileSizeForUser (s : FileService) (keyType : String) : ℤ :=
  if keyType = "live" then s.maxFileSizeLive else s.maxFileSizeTest

/-- Model of getStorageQuotaForPlan: starter 10GiB, pro 100GiB,
default (test) 100MiB. -/
def getStorageQuotaForPlan (plan : String) : ℤ :=
  if plan = "starter" then 10 * 1024 * 1024 * 1024
  else if plan = "pro" then 100 * 1024 * 1024 * 1024
  else 100 * 1024 * 1024

/-- Model of FileService.Upload: authenticate, check the tier size limit,
check the storage quota, open and sniff the stream, derive keys, stream to
S3, persist metadata with a best-effort compensating S3 delete if the
insert fails.  Returns the result together with the final store state. -/
def FileService.Upload (svc : FileService) (env : UploadEnv) (apiKey : String)
    (fileHeader : FileHeader) (st : Stores) :
    (Except UploadError FileRec) × Stores :=
  match env.findByAPIKey apiKey with
  | none => (Except.error UploadError.invalidAPIKey, st)
  | some user =>
    if fileHeader.size > svc.getMaxFileSizeForUser user.keyType then
      (Except.error UploadError.fileTooLarge, st)
    else
      match env.storageUsage user.id with
      | none => (Except.error UploadError.internalError, st)
      | some (currentUsage, _count) =>
        if currentUsage + fileHeader.size > getStorageQuotaForPlan user.plan then
          (Except.error UploadError.storageExceeded, st)
        else if env.openOk = false then
          (Except.error UploadError.internalError, st)
        else
          match env.sniff with
          | none => (Except.error UploadError.invalidFileType, st)
          | some (extension, mimeType) =>
            let keys := generateFileKeys env.newULID extension svc.baseURL
            if env.putOk = false then
              (Except.error UploadError.internalError, st)
            else
              let st1 : Stores := { st with s3 := keys.2.1 :: st.s3 }
              let file : FileRec :=
                { id := env.newULID, externalID := keys.1, userID := user.id
                  filename := fileHeader.filename, extension := extension
                  sizeBytes := fileHeader.size, mimeType := mimeType
                  s3Key := keys.2.1, cdnURL := keys.2.2 }
              if env.createOk = false then
                (Except.error UploadError.internalError,
                 { st1 with s3 := st1.s3.filter (fun x => x ≠ keys.2.1) })
              else
                (Except.ok file, { st1 with meta := file :: st1.meta })

/-- A files-table row as read by FindByID / SoftDelete. -/
structure FileRow where
  id : String
  userID : String
  deletedAt : Option ℚ
deriving DecidableEq

/-- Model of FileStore.FindByID: SELECT ... WHERE id = $1 AND deleted_at IS
NULL (ids are unique in the table; find? returns the matching row). -/
def FindByID (db : List FileRow) (ulid : String) : Option FileRow :=
  db.find? (fun r => decide (r.id = ulid ∧ r.deletedAt = none))

/-- Model of FileStore.SoftDelete: UPDATE files SET deleted_at = NOW()
WHERE id = $1 AND deleted_at IS NULL; error when no row was affected
("file not found or already deleted"). -/
def SoftDelete (db : List FileRow) (now : ℚ) (ulid : String) :
    (Except Unit Unit) × List FileRow :=
  let rows := db.map (fun r =>
    if r.id = ulid ∧ r.deletedAt = none then { r with deletedAt := some now } else r)
  let affected := (db.filter (fun r => decide (r.id = ulid ∧ r.deletedAt = none))).length
  if affected = 0 then (Except.error (), rows) else (Except.ok (), rows)

/-- The two DeleteFile failures. -/
inductive DeleteError
  | fileNotFound
  | internalError
deriving DecidableEq

/-- Model of DeleteFile's id normalization: strip an img_ prefix if present
and uppercase. -/
def normalizeFileID (fileID : String) : String :=
  if goHasPre fileID ("img_") then goToUpper (String.mk (fileID.data.drop 4))
  else goToUpper fileID

/-- Model of FileService.DeleteFile: normalize the id, look the row up
(excluding soft-deleted rows), check ownership — missing and not-owned both
return the same fileNotFound — then soft delete. -/
def DeleteFile (db : List FileRow) (now : ℚ) (fileID userID : String) :
    (Except DeleteError Unit) × List FileRow :=
  let ulid := normalizeFileID fileID
  match FindByID db ulid with
  | none => (Except.error DeleteError.fileNotFound, db)
  | some file =>
    if file.userID ≠ userID then (Except.error DeleteError.fileNotFound, db)
    else
      match SoftDelete db now ulid with
      | (Except.error _, db1) => (Except.error DeleteError.internalError, db1)
      | (Except.ok _, db1) => (Except.ok (), db1)

end Files

namespace Files

/-- C7: when the account resolves and the declared size exceeds the tier's
max-file-size, Upload fails with FileTooLarge and leaves both stores
exactly as they were (no object-store write, no metadata write). -/
theorem C7_file_too_large_no_side_effects (svc : FileService) (env : UploadEnv)
    (apiKey : String) (fh : FileHeader) (st : Stores) (user : User)
    (huser : env.findByAPIKey apiKey = some user)
    (hsize : fh.size > svc.getMaxFileSizeForUser user.keyType) :
    svc.Upload env apiKey fh st = (Except.error UploadError.fileTooLarge, st) := by
  simp only [FileService.Upload, huser]
  rw [if_pos hsize]

/-- C4: for an upload that authenticates, is within the tier size limit and
whose usage query succeeds, Upload returns QuotaExceeded exactly when the
current non-deleted byte total plus the declared size strictly exceeds the
plan quota; an upload landing exactly on the boundary is not rejected. -/
theorem C4_quota_exceeded_boundary (svc : FileService) (env : UploadEnv)
    (apiKey : String) (fh : FileHeader) (st : Stores) (user : User) (cur cnt : ℤ)
    (huser : env.findByAPIKey apiKey = some user)
    (hsize : ¬ (fh.size > svc.getMaxFileSizeForUser user.keyType))
    (husage : env.storageUsage user.id = some (cur, cnt)) :
    ((svc.Upload env apiKey fh st).1 = Except.error UploadError.storageExceeded ↔
      cur + fh.size > getStorageQuotaForPlan user.plan) := by
  simp only [FileService.Upload, huser, husage]
  rw [if_neg hsize]
  by_cases hq : cur + fh.size > getStorageQuotaForPlan user.plan
  · rw [if_pos hq]
    simp [hq]
  · rw [if_neg hq]
    simp only [iff_iff_implies_and_implies]
    constructor
    · intro hcontra
      exfalso
      rcases hsn : env.sniff with _ | ⟨ext, mime⟩ <;>
        by_cases ho : env.openOk = false <;>
        by_cases hp : env.putOk = false <;>
        by_cases hc : env.createOk = false <;>
        simp [ho, hp, hc, hsn] at hcontra
    · intro hq'
      exact absurd hq' hq

/-- C8: key derivation is a pure function of the identifier and extension
(and the configured base for the URL): the storage key is the lowercase
first three identifier characters as three path levels then the identifier
and extension; the alias is img_ plus the lowercase identifier; the public
URL is the base, /i/, the identifier and the extension. -/
theorem C8_key_derivation (id ext base : String) (h : 3 ≤ id.data.length) :
    generateFileKeys id ext base =
      (("img_") ++ goToLower id, specStorageKey id ext,
       base ++ ("/i/") ++ id ++ (".") ++ ext) := by
  have hlen : 3 ≤ ((goToLower id).data).length := by
    show 3 ≤ (id.data.map Char.toLower).length
    simpa using h
  rcases hd : (goToLower id).data with _ | ⟨a, t⟩
  · rw [hd] at hlen; simp at hlen
  · rcases t with _ | ⟨b, t2⟩
    · rw [hd] at hlen; simp at hlen
    · rcases t2 with _ | ⟨c, t3⟩
      · rw [hd] at hlen; simp at hlen
      · simp [generateFileKeys, specStorageKey, hd]

/-- C6: deleting an id with no live row and deleting an id whose live row
belongs to a different account return the very same fileNotFound error, so
the two cases are indistinguishable to every caller. -/
theorem C6_notfound_indistinguishable (db : List FileRow) (now : ℚ)
    (id1 id2 userID : String) (f2 : FileRow)
    (h1 : FindByID db (normalizeFileID id1) = none)
    (h2 : FindByID db (normalizeFileID id2) = some f2)
    (h3 : f2.userID ≠ userID) :
    (DeleteFile db now id1 userID).1 = Except.error DeleteError.fileNotFound ∧
    (DeleteFile db now id2 userID).1 = Except.error DeleteError.fileNotFound := by
  constructor
  · simp [DeleteFile, h1]
  · simp [DeleteFile, h2, h3]

lemma softDelete_state (db : List FileRow) (now : ℚ) (u : String) :
    (SoftDelete db now u).2 = db.map (fun r =>
      if r.id = u ∧ r.deletedAt = none then { r with deletedAt := some now } else r) := by
  simp only [SoftDelete]
  split <;> rfl

lemma softDelete_no_live (db : List FileRow) (now : ℚ) (u : String) :
    ∀ r ∈ (SoftDelete db now u).2, ¬ (r.id = u ∧ r.deletedAt = none) := by
  intro r hr
  rw [softDelete_state] at hr
  obtain ⟨r0, hr0, rfl⟩ := List.mem_map.1 hr
  by_cases h0 : r0.id = u ∧ r0.deletedAt = none
  · rw [if_pos h0]
    rintro ⟨-, hnone⟩
    simp at hnone
  · rw [if_neg h0]
    exact h0

lemma softDelete_already (db : List FileRow) (now : ℚ) (u : String)
    (hno : ∀ r ∈ db, ¬ (r.id = u ∧ r.deletedAt = none)) :
    SoftDelete db now u = (Except.error (), db) := by
  have hmap : db.map (fun r =>
      if r.id = u ∧ r.deletedAt = none then { r with deletedAt := some now } else r) = db := by
    conv_rhs => rw [show db = db.map id from (List.map_id db).symm]
    exact List.map_congr_left (fun r hr => by rw [if_neg (hno r hr)]; rfl)
  have hfil : db.filter (fun r => decide (r.id = u ∧ r.deletedAt = none)) = [] := by
    rw [List.filter_eq_nil_iff]
    intro r hr
    simpa using hno r hr
  simp only [SoftDelete, hmap, hfil]
  simp

lemma findByID_none_of_no_live (db : List FileRow) (u : String)
    (hno : ∀ r ∈ db, ¬ (r.id = u ∧ r.deletedAt = none)) :
    FindByID db u = none := by
  rw [FindByID, List.find?_eq_none]
  intro r hr
  simpa using hno r hr

/-- C9: the deleted timestamp is write-once.  After a successful SoftDelete,
a second SoftDelete of the same id returns the not-found-or-already-deleted
error and leaves the table (hence the original deletion timestamp and the
purge deadline measured from it) unchanged, and a second service-level
DeleteFile returns the not-found error for every caller. -/
theorem C9_soft_delete_write_once (db : List FileRow) (t1 t2 : ℚ) (fid : String)
    (h : (SoftDelete db t1 (normalizeFileID fid)).1 = Except.ok ()) :
    SoftDelete ((SoftDelete db t1 (normalizeFileID fid)).2) t2 (normalizeFileID fid) =
      (Except.error (), (SoftDelete db t1 (normalizeFileID fid)).2) ∧
    ∀ uid, (DeleteFile ((SoftDelete db t1 (normalizeFileID fid)).2) t2 fid uid).1 =
      Except.error DeleteError.fileNotFound := by
  have hno := softDelete_no_live db t1 (normalizeFileID fid)
  constructor
  · exact softDelete_already _ t2 _ hno
  · intro uid
    have hfind := findByID_none_of_no_live _ _ hno
    simp [DeleteFile, hfind]

end Files

namespace Files

/-- A service configuration with the default size limits (test 10MiB,
live 100MiB). -/
def sampleSvc : FileService :=
  { baseURL := ("http://localhost:8080"), s3Bucket := ("bucket")
    maxFileSizeTest := 10485760, maxFileSizeLive := 104857600 }

/-- A service configuration whose test limit was raised to 100MiB via the
MAX_FILE_SIZE_TEST environment variable. -/
def sampleSvcBig : FileService :=
  { baseURL := ("http://localhost:8080"), s3Bucket := ("bucket")
    maxFileSizeTest := 104857600, maxFileSizeLive := 104857600 }

/-- A test-plan account. -/
def sampleUser : User := { id := ("u1"), keyType := ("test"), plan := ("test") }

/-- An environment for an account with three 10MiB files stored (30MiB,
30 percent of the 100MiB test quota) where every external call succeeds. -/
def sampleEnv : UploadEnv :=
  { findByAPIKey := fun _ => some sampleUser
    storageUsage := fun _ => some (31457280, 3)
    openOk := true
    sniff := some (("jpg"), ("image/jpeg"))
    newULID := ("01ARZ3NDEKTSV4RRFFQ69G5FAV")
    putOk := true
    createOk := true }

/-- Empty stores. -/
def sampleStores : Stores := { s3 := [], meta := [] }

/-- Witness for C7: a 20MiB upload on a test key (10MiB limit) fails with
FileTooLarge and both stores are untouched. -/
theorem C7_file_too_large_no_side_effects_witness :
    sampleEnv.findByAPIKey ("k") = some sampleUser ∧
    ({ filename := ("f.jpg"), size := 20971520 } : FileHeader).size >
      sampleSvc.getMaxFileSizeForUser sampleUser.keyType ∧
    sampleSvc.Upload sampleEnv ("k") { filename := ("f.jpg"), size := 20971520 }
        sampleStores =
      (Except.error UploadError.fileTooLarge, sampleStores) :=
  ⟨rfl, by decide,
   C7_file_too_large_no_side_effects sampleSvc sampleEnv ("k") _ sampleStores
     sampleUser rfl (by decide)⟩

/-- Witness for C4: the spec scenario — 100MiB quota, 30MiB used, an 80MiB
upload (within the configured size limit) is rejected as QuotaExceeded
because 30MiB + 80MiB strictly exceeds the quota. -/
theorem C4_quota_exceeded_boundary_witness :
    sampleEnv.findByAPIKey ("k") = some sampleUser ∧
    ¬ (({ filename := ("f.jpg"), size := 83886080 } : FileHeader).size >
        sampleSvcBig.getMaxFileSizeForUser sampleUser.keyType) ∧
    sampleEnv.storageUsage sampleUser.id = some (31457280, 3) ∧
    ((sampleSvcBig.Upload sampleEnv ("k") { filename := ("f.jpg"), size := 83886080 }
        sampleStores).1 = Except.error UploadError.storageExceeded ↔
      (31457280 : ℤ) + ({ filename := ("f.jpg"), size := 83886080 } : FileHeader).size >
        getStorageQuotaForPlan sampleUser.plan) :=
  ⟨rfl, by decide, rfl,
   C4_quota_exceeded_boundary sampleSvcBig sampleEnv ("k") _ sampleStores
     sampleUser 31457280 3 rfl (by decide) rfl⟩

/-- Witness for C8 at a concrete ULID, extension and base. -/
theorem C8_key_derivation_witness :
    3 ≤ ("01ARZ3NDEKTSV4RRFFQ69G5FAV").data.length ∧
    generateFileKeys ("01ARZ3NDEKTSV4RRFFQ69G5FAV") ("jpg") ("http://localhost:8080") =
      (("img_") ++ goToLower ("01ARZ3NDEKTSV4RRFFQ69G5FAV"),
       specStorageKey ("01ARZ3NDEKTSV4RRFFQ69G5FAV") ("jpg"),
       ("http://localhost:8080") ++ ("/i/") ++ ("01ARZ3NDEKTSV4RRFFQ69G5FAV") ++
         (".") ++ ("jpg")) :=
  ⟨by decide,
   C8_key_derivation ("01ARZ3NDEKTSV4RRFFQ69G5FAV") ("jpg") ("http://localhost:8080")
     (by decide)⟩

/-- A one-row files table: FILEA owned by account owner, not deleted. -/
def sampleDb : List FileRow :=
  [{ id := ("FILEA"), userID := ("owner"), deletedAt := none }]

/-- Witness for C6: caller "caller" deleting the missing id "missing" and
the other-account id "filea" gets the same fileNotFound both times. -/
theorem C6_notfound_indistinguishable_witness :
    FindByID sampleDb (normalizeFileID ("missing")) = none ∧
    FindByID sampleDb (normalizeFileID ("filea")) =
      some { id := ("FILEA"), userID := ("owner"), deletedAt := none } ∧
    ({ id := ("FILEA"), userID := ("owner"), deletedAt := none } : FileRow).userID ≠
      ("caller") ∧
    ((DeleteFile sampleDb 5 ("missing") ("caller")).1 =
        Except.error DeleteError.fileNotFound ∧
     (DeleteFile sampleDb 5 ("filea") ("caller")).1 =
        Except.error DeleteError.fileNotFound) :=
  ⟨by decide, by decide, by decide,
   C6_notfound_indistinguishable sampleDb 5 ("missing") ("filea") ("caller")
     { id := ("FILEA"), userID := ("owner"), deletedAt := none }
     (by decide) (by decide) (by decide)⟩

/-- Witness for C9: soft-deleting FILEA at time 1 succeeds; a second soft
delete at time 2 errors and leaves the table unchanged, and DeleteFile
then reports fileNotFound. -/
theorem C9_soft_delete_write_once_witness :
    (SoftDelete sampleDb 1 (normalizeFileID ("FILEA"))).1 = Except.ok () ∧
    (SoftDelete ((SoftDelete sampleDb 1 (normalizeFileID ("FILEA"))).2) 2
        (normalizeFileID ("FILEA")) =
      (Except.error (), (SoftDelete sampleDb 1 (normalizeFileID ("FILEA"))).2) ∧
     ∀ uid, (DeleteFile ((SoftDelete sampleDb 1 (normalizeFileID ("FILEA"))).2) 2
        ("FILEA") uid).1 = Except.error DeleteError.fileNotFound) :=
  ⟨rfl, C9_soft_delete_write_once sampleDb 1 2 ("FILEA") rfl⟩

end Files

namespace Cleanup

/-!
Model of the Lifecycle Worker (CleanupService).  The two scans' candidate
queries (FindExpiredTestFiles, FindExpiredSoftDeleted) are database I/O and
enter as the `files` list; S3 DeleteObject outcomes are the oracle `s3ok`,
SQL execution outcomes of the metadata hard delete the oracle `dbok`, and
context cancellation the oracle `cancel` (checked before each candidate,
indexed by iteration).
-/

/-- A candidate row as the cleanup scans read it. -/
structure CFile where
  id : String
  s3Key : String
  sizeBytes : ℤ
deriving DecidableEq

/-- Object-store contents (keys) and metadata rows (ids) present. -/
structure WorldState where
  s3 : List String
  rows : List String
deriving DecidableEq

/-- A pass returns ctx.Err() on cancellation, or the
completed-with-errors aggregate when any per-object deletion failed. -/
inductive CleanupErr
  | cancelled
  | aggregate
deriving DecidableEq

/-- Model of FileStore.PermanentlyDelete: DELETE FROM files WHERE id = $1;
fails when the SQL execution fails (dbok) or no row was affected. -/
def permanentlyDelete (dbok : String → Bool) (id : String) (rows : List String) :
    Bool × List String :=
  if dbok id then
    if id ∈ rows then (true, rows.filter (fun x => x ≠ id)) else (false, rows)
  else (false, rows)

/-- The shared per-candidate loop body of both scans (the two Go loop
bodies are textually identical apart from log strings): check cancellation,
honour dry-run, delete from S3 first — on failure record the error and skip
the row entirely — then hard-delete the metadata row, recording but not
propagating per-row failures; the aggregate error is returned at the end. -/
def cleanupLoop (dryRun : Bool) (s3ok : CFile → Bool) (dbok : String → Bool)
    (cancel : ℕ → Bool) :
    List CFile → ℕ → ℕ → Bool → WorldState → ℕ × Option CleanupErr × WorldState
  | [], _, cnt, errFlag, st =>
    (cnt, if errFlag then some CleanupErr.aggregate else none, st)
  | f :: rest, i, cnt, errFlag, st =>
    if cancel i then (cnt, some CleanupErr.cancelled, st)
    else if dryRun then
      cleanupLoop dryRun s3ok dbok cancel rest (i + 1) (cnt + 1) errFlag st
    else if s3ok f then
      let st1 : WorldState := { st with s3 := st.s3.filter (fun x => x ≠ f.s3Key) }
      let r := permanentlyDelete dbok f.id st1.rows
      if r.1 then
        cleanupLoop dryRun s3ok dbok cancel rest (i + 1) (cnt + 1) errFlag
          { st1 with rows := r.2 }
      else
        cleanupLoop dryRun s3ok dbok cancel rest (i + 1) cnt true
          { st1 with rows := r.2 }
    else
      cleanupLoop dryRun s3ok dbok cancel rest (i + 1) cnt true st

/-- Model of CleanupService.CleanupExpiredTestFiles over its candidate
list. -/
def CleanupExpiredTestFiles (dryRun : Bool) (s3ok : CFile → Bool)
    (dbok : String → Bool) (cancel : ℕ → Bool) (files : List CFile)
    (st : WorldState) : ℕ × Option CleanupErr × WorldState :=
  cleanupLoop dryRun s3ok dbok cancel files 0 0 false st

/-- Model of CleanupService.CleanupExpiredSoftDeleted over its candidate
list (the loop body is identical to the trial-expiry scan's). -/
def CleanupExpiredSoftDeleted (dryRun : Bool) (s3ok : CFile → Bool)
    (dbok : String → Bool) (cancel : ℕ → Bool) (files : List CFile)
    (st : WorldState) : ℕ × Option CleanupErr × WorldState :=
  cleanupLoop dryRun s3ok dbok cancel files 0 0 false st

end Cleanup

namespace Cleanup

lemma cleanupLoop_nil (dryRun : Bool) (s3ok : CFile → Bool) (dbok : String → Bool)
    (cancel : ℕ → Bool) (i cnt : ℕ) (flag : Bool) (st : WorldState) :
    cleanupLoop dryRun s3ok dbok cancel [] i cnt flag st =
      (cnt, if flag then some CleanupErr.aggregate else none, st) := rfl

lemma cleanupLoop_cons (dryRun : Bool) (s3ok : CFile → Bool) (dbok : String → Bool)
    (cancel : ℕ → Bool) (f : CFile) (rest : List CFile) (i cnt : ℕ) (flag : Bool)
    (st : WorldState) :
    cleanupLoop dryRun s3ok dbok cancel (f :: rest) i cnt flag st =
      (if cancel i then (cnt, some CleanupErr.cancelled, st)
       else if dryRun then
         cleanupLoop dryRun s3ok dbok cancel rest (i + 1) (cnt + 1) flag st
       else if s3ok f then
         let st1 : WorldState := { st with s3 := st.s3.filter (fun x => x ≠ f.s3Key) }
         let r := permanentlyDelete dbok f.id st1.rows
         if r.1 then
           cleanupLoop dryRun s3ok dbok cancel rest (i + 1) (cnt + 1) flag
             { st1 with rows := r.2 }
         else
           cleanupLoop dryRun s3ok dbok cancel rest (i + 1) cnt true
             { st1 with rows := r.2 }
       else cleanupLoop dryRun s3ok dbok cancel rest (i + 1) cnt true st) := rfl

section NoCancel

variable {s3ok : CFile → Bool} {dbok : String → Bool} {cancel : ℕ → Bool}

lemma loop_index (hcancel : ∀ i, cancel i = false) :
    ∀ (files : List CFile) (i j cnt : ℕ) (flag : Bool) (st : WorldState),
      cleanupLoop false s3ok dbok cancel files i cnt flag st =
        cleanupLoop false s3ok dbok cancel files j cnt flag st := by
  intro files
  induction files with
  | nil => intro i j cnt flag st; rfl
  | cons f rest ih =>
    intro i j cnt flag st
    rw [cleanupLoop_cons, cleanupLoop_cons, hcancel i, hcancel j]
    simp only [Bool.false_eq_true, if_false]
    by_cases hs : s3ok f = true
    · simp only [hs, if_true]
      by_cases hr : (permanentlyDelete dbok f.id (st.rows)).1 = true
      · simp only [hr, if_true]
        exact ih _ _ _ _ _
      · simp only [hr, if_false]
        exact ih _ _ _ _ _
    · simp only [hs, if_false]
      exact ih _ _ _ _ _

lemma loop_flag_proj :
    ∀ (files : List CFile) (dryRun : Bool) (i cnt : ℕ) (flag flag' : Bool)
      (st : WorldState),
      (cleanupLoop dryRun s3ok dbok cancel files i cnt flag st).1 =
        (cleanupLoop dryRun s3ok dbok cancel files i cnt flag' st).1 ∧
      (cleanupLoop dryRun s3ok dbok cancel files i cnt flag st).2.2 =
        (cleanupLoop dryRun s3ok dbok cancel files i cnt flag' st).2.2 := by
  intro files
  induction files with
  | nil => intro dryRun i cnt flag flag' st; exact ⟨rfl, rfl⟩
  | cons f rest ih =>
    intro dryRun i cnt flag flag' st
    rw [cleanupLoop_cons, cleanupLoop_cons]
    rcases hc : cancel i with _ | _
    · simp only [hc, Bool.false_eq_true, if_false]
      rcases hd : dryRun with _ | _
      · simp only [Bool.false_eq_true, if_false]
        rcases hs : s3ok f with _ | _
        · simp only [Bool.false_eq_true, if_false]
          simp
        · simp only [if_true]
          rcases hr : (permanentlyDelete dbok f.id (st.rows)).1 with _ | _
          · simp only [Bool.false_eq_true, if_false]
            simp
          · simp only [if_true]
            exact ih _ _ _ _ _ _
      · simp only [if_true]
        exact ih _ _ _ _ _ _
    · simp only [hc, if_true]
      simp

lemma loop_flag_true_err (hcancel : ∀ i, cancel i = false) :
    ∀ (files : List CFile) (i cnt : ℕ) (st : WorldState),
      (cleanupLoop false s3ok dbok cancel files i cnt true st).2.1 =
        some CleanupErr.aggregate := by
  intro files
  induction files with
  | nil => intro i cnt st; rfl
  | cons f rest ih =>
    intro i cnt st
    rw [cleanupLoop_cons, hcancel i]
    simp only [Bool.false_eq_true, if_false]
    by_cases hs : s3ok f = true
    · simp only [hs, if_true]
      by_cases hr : (permanentlyDelete dbok f.id (st.rows)).1 = true
      · simp only [hr, if_true]
        exact ih _ _ _
      · simp only [hr, if_false]
        exact ih _ _ _
    · simp only [hs, if_false]
      exact ih _ _ _

lemma loop_err_of_fail (hcancel : ∀ i, cancel i = false) {f : CFile}
    (hfail : s3ok f = false) (ys : List CFile) :
    ∀ (xs : List CFile) (i cnt : ℕ) (flag : Bool) (st : WorldState),
      (cleanupLoop false s3ok dbok cancel (xs ++ f :: ys) i cnt flag st).2.1 =
        some CleanupErr.aggregate := by
  intro xs
  induction xs with
  | nil =>
    intro i cnt flag st
    rw [List.nil_append, cleanupLoop_cons, hcancel i, hfail]
    simp only [Bool.false_eq_true, if_false]
    exact loop_flag_true_err hcancel _ _ _ _
  | cons x xs ih =>
    intro i cnt flag st
    rw [List.cons_append, cleanupLoop_cons, hcancel i]
    simp only [Bool.false_eq_true, if_false]
    by_cases hs : s3ok x = true
    · simp only [hs, if_true]
      by_cases hr : (permanentlyDelete dbok x.id (st.rows)).1 = true
      · simp only [hr, if_true]
        exact ih _ _ _ _
      · simp only [hr, if_false]
        exact ih _ _ _ _
    · simp only [hs, if_false]
      exact ih _ _ _ _

lemma loop_skip_projs (hcancel : ∀ i, cancel i = false) {f : CFile}
    (hfail : s3ok f = false) (ys : List CFile) :
    ∀ (xs : List CFile) (i cnt : ℕ) (flag : Bool) (st : WorldState),
      (cleanupLoop false s3ok dbok cancel (xs ++ f :: ys) i cnt flag st).1 =
        (cleanupLoop false s3ok dbok cancel (xs ++ ys) i cnt flag st).1 ∧
      (cleanupLoop false s3ok dbok cancel (xs ++ f :: ys) i cnt flag st).2.2 =
        (cleanupLoop false s3ok dbok cancel (xs ++ ys) i cnt flag st).2.2 := by
  intro xs
  induction xs with
  | nil =>
    intro i cnt flag st
    rw [List.nil_append, List.nil_append, cleanupLoop_cons, hcancel i, hfail]
    simp only [Bool.false_eq_true, if_false]
    rw [loop_index hcancel ys (i + 1) i]
    exact loop_flag_proj ys false i cnt true flag st
  | cons x xs ih =>
    intro i cnt flag st
    rw [List.cons_append, List.cons_append, cleanupLoop_cons, cleanupLoop_cons, hcancel i]
    simp only [Bool.false_eq_true, if_false]
    by_cases hs : s3ok x = true
    · simp only [hs, if_true]
      by_cases hr : (permanentlyDelete dbok x.id (st.rows)).1 = true
      · simp only [hr, if_true]
        exact ih _ _ _ _
      · simp only [hr, if_false]
        exact ih _ _ _ _
    · simp only [hs, if_false]
      exact ih _ _ _ _

end NoCancel

lemma pd_removed_eq (dbok : String → Bool) (delid : String) (rows : List String)
    (x : String) (hin : x ∈ rows)
    (hout : x ∉ (permanentlyDelete dbok delid rows).2) : x = delid := by
  unfold permanentlyDelete at hout
  by_cases hd : dbok delid = true
  · rw [if_pos hd] at hout
    by_cases hm : delid ∈ rows
    · rw [if_pos hm] at hout
      by_contra hne
      exact hout (List.mem_filter.2 ⟨hin, by simpa using hne⟩)
    · rw [if_neg hm] at hout
      exact absurd hin hout
  · rw [if_neg hd] at hout
    exact absurd hin hout

lemma loop_rows_removed (s3ok : CFile → Bool) (dbok : String → Bool)
    (cancel : ℕ → Bool) :
    ∀ (files : List CFile) (dryRun : Bool) (i cnt : ℕ) (flag : Bool)
      (st : WorldState) (x : String),
      x ∈ st.rows →
      x ∉ (cleanupLoop dryRun s3ok dbok cancel files i cnt flag st).2.2.rows →
      ∃ g ∈ files, g.id = x ∧ s3ok g = true := by
  intro files
  induction files with
  | nil =>
    intro dryRun i cnt flag st x hin hout
    exact absurd hin hout
  | cons f rest ih =>
    intro dryRun i cnt flag st x hin hout
    rw [cleanupLoop_cons] at hout
    rcases hc : cancel i with _ | _
    · rw [hc] at hout
      simp only [Bool.false_eq_true, if_false] at hout
      rcases hd : dryRun with _ | _
      · rw [hd] at hout
        simp only [Bool.false_eq_true, if_false] at hout
        rcases hs : s3ok f with _ | _
        · rw [hs] at hout
          simp only [Bool.false_eq_true, if_false] at hout
          obtain ⟨g, hg, hgx, hgs⟩ := ih _ _ _ _ _ _ hin hout
          exact ⟨g, List.mem_cons_of_mem f hg, hgx, hgs⟩
        · rw [hs] at hout
          simp only [if_true] at hout
          by_cases hmem : x ∈ (permanentlyDelete dbok f.id (st.rows)).2
          · rcases hr : (permanentlyDelete dbok f.id (st.rows)).1 with _ | _ <;>
              rw [hr] at hout <;>
              simp only [Bool.false_eq_true, if_false, if_true] at hout
            · obtain ⟨g, hg, hgx, hgs⟩ := ih _ _ _ _ _ _ hmem hout
              exact ⟨g, List.mem_cons_of_mem f hg, hgx, hgs⟩
            · obtain ⟨g, hg, hgx, hgs⟩ := ih _ _ _ _ _ _ hmem hout
              exact ⟨g, List.mem_cons_of_mem f hg, hgx, hgs⟩
          · have hx : x = f.id := pd_removed_eq dbok f.id (st.rows) x hin hmem
            exact ⟨f, List.mem_cons_self f rest, hx.symm, hs⟩
      · rw [hd] at hout
        simp only [if_true] at hout
        obtain ⟨g, hg, hgx, hgs⟩ := ih _ _ _ _ _ _ hin hout
        exact ⟨g, List.mem_cons_of_mem f hg, hgx, hgs⟩
    · rw [hc] at hout
      simp only [if_true] at hout
      exact absurd hin hout



/-- C3: in both Lifecycle Worker scans (which share one loop body), with no
cancellation and dry-run off, a candidate whose object-store delete fails is
skipped whole: its metadata row survives the entire pass, every metadata row
that disappears during a pass belongs to a candidate whose object-store
delete returned success (object-store delete precedes metadata delete), the
pass continues with the remaining candidates exactly as if the failed one
were absent (same success count, same final stores), and the failure shows
up only as the aggregate error returned at the end. -/
theorem C3_cleanup_delete_order (s3ok : CFile → Bool) (dbok : String → Bool) (cancel : ℕ → Bool)
    (pre post : List CFile) (f : CFile) (st : WorldState)
    (hcancel : ∀ i, cancel i = false) (hfail : s3ok f = false)
    (hnodup : ((pre ++ f :: post).map CFile.id).Nodup) :
    CleanupExpiredSoftDeleted false s3ok dbok cancel (pre ++ f :: post) st =
      CleanupExpiredTestFiles false s3ok dbok cancel (pre ++ f :: post) st ∧
    (∀ x, x ∈ st.rows →
      x ∉ (CleanupExpiredTestFiles false s3ok dbok cancel (pre ++ f :: post) st).2.2.rows →
      ∃ g ∈ pre ++ f :: post, g.id = x ∧ s3ok g = true) ∧
    (f.id ∈ st.rows →
      f.id ∈ (CleanupExpiredTestFiles false s3ok dbok cancel (pre ++ f :: post) st).2.2.rows) ∧
    (CleanupExpiredTestFiles false s3ok dbok cancel (pre ++ f :: post) st).2.1 =
      some CleanupErr.aggregate ∧
    (CleanupExpiredTestFiles false s3ok dbok cancel (pre ++ f :: post) st).1 =
      (CleanupExpiredTestFiles false s3ok dbok cancel (pre ++ post) st).1 ∧
    (CleanupExpiredTestFiles false s3ok dbok cancel (pre ++ f :: post) st).2.2 =
      (CleanupExpiredTestFiles false s3ok dbok cancel (pre ++ post) st).2.2 := by
  refine ⟨rfl, ?_, ?_, ?_, ?_, ?_⟩
  · intro x hx hout
    exact loop_rows_removed s3ok dbok cancel _ _ _ _ _ _ _ hx hout
  · intro hin
    by_contra hout
    obtain ⟨g, hg, hgid, hgs⟩ :=
      loop_rows_removed s3ok dbok cancel _ _ _ _ _ _ _ hin hout
    have hgf : g = f :=
      List.inj_on_of_nodup_map hnodup hg (by simp) hgid
    rw [hgf, hfail] at hgs
    cases hgs
  · exact loop_err_of_fail hcancel hfail post pre 0 0 false st
  · exact (loop_skip_projs hcancel hfail post pre 0 0 false st).1
  · exact (loop_skip_projs hcancel hfail post pre 0 0 false st).2

/-- Per-candidate S3 outcome for the witness: always fail. -/
def wS3ok : CFile → Bool := fun _ => false

/-- Per-candidate SQL outcome for the witness: always succeed. -/
def wDbok : String → Bool := fun _ => true

/-- No cancellation for the witness. -/
def wCancel : ℕ → Bool := fun _ => false

/-- The witness candidate. -/
def wFile : CFile := { id := ("A"), s3Key := ("a/A.jpg"), sizeBytes := 5 }

/-- The witness world: the object and its row exist. -/
def wState : WorldState := { s3 := [("a/A.jpg")], rows := [("A")] }

/-- Witness for C3: a one-candidate pass whose S3 delete fails leaves the
row, reports the aggregate error, and matches the empty pass's count and
state. -/
theorem C3_cleanup_delete_order_witness :
    (∀ i, wCancel i = false) ∧ wS3ok wFile = false ∧
    ((([] ++ wFile :: []).map CFile.id).Nodup) ∧
    (CleanupExpiredSoftDeleted false wS3ok wDbok wCancel ([] ++ wFile :: []) wState =
       CleanupExpiredTestFiles false wS3ok wDbok wCancel ([] ++ wFile :: []) wState ∧
     (∀ x, x ∈ wState.rows →
       x ∉ (CleanupExpiredTestFiles false wS3ok wDbok wCancel
            ([] ++ wFile :: []) wState).2.2.rows →
       ∃ g ∈ [] ++ wFile :: [], g.id = x ∧ wS3ok g = true) ∧
     (wFile.id ∈ wState.rows →
       wFile.id ∈ (CleanupExpiredTestFiles false wS3ok wDbok wCancel
            ([] ++ wFile :: []) wState).2.2.rows) ∧
     (CleanupExpiredTestFiles false wS3ok wDbok wCancel
        ([] ++ wFile :: []) wState).2.1 = some CleanupErr.aggregate ∧
     (CleanupExpiredTestFiles false wS3ok wDbok wCancel
        ([] ++ wFile :: []) wState).1 =
       (CleanupExpiredTestFiles false wS3ok wDbok wCancel ([] ++ []) wState).1 ∧
     (CleanupExpiredTestFiles false wS3ok wDbok wCancel
        ([] ++ wFile :: []) wState).2.2 =
       (CleanupExpiredTestFiles false wS3ok wDbok wCancel ([] ++ []) wState).2.2) :=
  ⟨fun _ => rfl, rfl, by decide,
   C3_cleanup_delete_order wS3ok wDbok wCancel [] [] wFile wState
     (fun _ => rfl) rfl (by decide)⟩

end Cleanup
